import Mathlib

/-!
Verification of the localisation-manager merge checker, term reconciler,
text normalizer and diff engine.

Shallow embedding conventions:
* JavaScript strings are modelled as `Str := List Char`; the JS values
  `null`/`undefined` are modelled as `none : Option Str` where a function
  distinguishes them from strings, and are absorbed into `""` (that is `[]`)
  where the source applies `|| ""`.
* A CSV row is the structure `Row`; the dynamically-keyed column
  `row[language]` of the source is modelled by the fixed field `Row.trans`
  (every source function under study reads a single, fixed `language` key,
  so the selected language column is a plain field of the model).  A column
  absent from a row is modelled by `[]`, which is equivalent here because
  every read in the source either tests truthiness (where `undefined` and
  `""` agree) or applies `|| ""`.
* JS object maps keyed by `termID` (later assignments overwriting earlier
  ones) are modelled by `foldl` lookups returning `Option`.
-/

/-- JS strings, modelled as lists of characters. -/
abbrev Str := List Char

/-- The ASCII single-quote character `'` (code 39). -/
def quoteChar : Char := Char.ofNat 39

/-- JS truthiness of a possibly-absent string value: `undefined`/`null` and
`""` are falsy, every other string is truthy. -/
def optTruthy (o : Option Str) : Bool :=
  match o with
  | none => false
  | some s => !s.isEmpty

/-- Whitespace for the purposes of JS `String.prototype.trim`
(space, tab, newline, carriage return, vertical tab, form feed; the source
only ever uses `trim` to test for whitespace-only cells). -/
def isJsSpace (c : Char) : Bool :=
  c = ' ' || c = '\t' || c = '\n' || c = '\r' || c = Char.ofNat 11 || c = Char.ofNat 12

/-- JS `String.prototype.trim`: drop leading and trailing whitespace. -/
def jsTrim (s : Str) : Str :=
  ((s.dropWhile isJsSpace).reverse.dropWhile isJsSpace).reverse

/-! ## Text Normalizer (`normalizeText`, src/mergeChecker.js) -/

/-- `、` U+3001 ideographic comma. -/
def ideographicComma : Char := Char.ofNat 0x3001

/-- `。` U+3002 ideographic full stop. -/
def ideographicPeriod : Char := Char.ofNat 0x3002

/-- `？` U+FF1F fullwidth question mark. -/
def fullwidthQuestion : Char := Char.ofNat 0xFF1F

/-- `！` U+FF01 fullwidth exclamation mark. -/
def fullwidthExclam : Char := Char.ofNat 0xFF01

/-- `：` U+FF1A fullwidth colon. -/
def fullwidthColon : Char := Char.ofNat 0xFF1A

/-- `；` U+FF1B fullwidth semicolon. -/
def fullwidthSemicolon : Char := Char.ofNat 0xFF1B

/-- `“` U+201C left double quotation mark. -/
def leftDoubleQuote : Char := Char.ofNat 0x201C

/-- `”` U+201D right double quotation mark. -/
def rightDoubleQuote : Char := Char.ofNat 0x201D

/-- `‘` U+2018 left single quotation mark. -/
def leftSingleQuote : Char := Char.ofNat 0x2018

/-- `’` U+2019 right single quotation mark. -/
def rightSingleQuote : Char := Char.ofNat 0x2019

/-- `text.startsWith("'") ? text.substring(1) : text`: strip exactly one
leading single quote (Google-Sheets escape character). -/
def stripLeadingQuote : Str → Str
  | [] => []
  | c :: rest => if c = quoteChar then rest else c :: rest

/-- `.replace(/\r\n/g, "\n")`: collapse Windows line endings, scanning left
to right without overlap, exactly as a global regex replace does. -/
def replaceCRLF : Str → Str
  | '\r' :: '\n' :: rest => '\n' :: replaceCRLF rest
  | c :: rest => c :: replaceCRLF rest
  | [] => []

/-- Single-character substitution applied at every position, as in
`.replace(/x/g, "y")` for one-character patterns. -/
def substChar (a b : Char) (c : Char) : Char :=
  if c = a then b else c

/-- `.replace(/x/g, "y")` over a whole string, one-character pattern. -/
def replaceChar (a b : Char) (t : Str) : Str :=
  t.map (substChar a b)

/-- Modelled from the spec: ECMAScript `String.prototype.normalize("NFKC")`,
which is not part of this repository.  It is modelled character-wise on the
repertoire this development quantifies over (`modelledChar`): NFKC is the
identity on ASCII and on the ideographic punctuation `、。“”‘’`, and maps the
fullwidth forms `？！：；` to their ASCII counterparts.  Characters outside
that repertoire are left unchanged by the model, so theorems about
`normalizeText` quantify only over `modelledChar` strings. -/
def nfkcChar (c : Char) : Char :=
  if c = fullwidthQuestion then '?'
  else if c = fullwidthExclam then '!'
  else if c = fullwidthColon then ':'
  else if c = fullwidthSemicolon then ';'
  else c

/-- Modelled from the spec: `String.prototype.normalize("NFKC")` over a whole
string (see `nfkcChar`). -/
def nfkcNormalize (t : Str) : Str :=
  t.map nfkcChar

/-- The character repertoire on which `nfkcChar` is a faithful model of
NFKC: ASCII plus the ten punctuation characters named in `normalizeText`. -/
def modelledChar (c : Char) : Bool :=
  c.toNat < 128 || c = ideographicComma || c = ideographicPeriod ||
  c = fullwidthQuestion || c = fullwidthExclam || c = fullwidthColon ||
  c = fullwidthSemicolon || c = leftDoubleQuote || c = rightDoubleQuote ||
  c = leftSingleQuote || c = rightSingleQuote

/-- `normalizeText` from src/mergeChecker.js: empty-guard, strip one leading
single quote, normalize line endings, map ideographic/fullwidth punctuation
to ASCII (in source order), then NFKC. -/
def normalizeText (text : Str) : Str :=
  if text.isEmpty then []
  else
    let normalized := stripLeadingQuote text
    nfkcNormalize
      (replaceChar rightSingleQuote quoteChar
        (replaceChar leftSingleQuote quoteChar
          (replaceChar rightDoubleQuote '"'
            (replaceChar leftDoubleQuote '"'
              (replaceChar fullwidthSemicolon ';'
                (replaceChar fullwidthColon ':'
                  (replaceChar fullwidthExclam '!'
                    (replaceChar fullwidthQuestion '?'
                      (replaceChar ideographicPeriod '.'
                        (replaceChar ideographicComma ','
                          (replaceChar '\r' '\n'
                            (replaceCRLF normalized))))))))))))

/-! ## Data model -/

/-- One CSV row.  `trans` is the cell of the selected language column
(`row[language]` in the source); absent cells are `[]`. -/
structure Row where
  termID : Str := []
  notes : Str := []
  shouldBeTranslated : Str := []
  translationNeedsToBeUpdated : Str := []
  English : Str := []
  trans : Str := []
deriving DecidableEq

/-- The string `"FALSE"`. -/
def strFALSE : Str := "FALSE".data

/-- The string `"TRUE"`. -/
def strTRUE : Str := "TRUE".data

/-! ## Merge-status evaluator (src/mergeChecker.js) -/

/-- `serverDataMap`: for each row with a truthy `termID` and a truthy,
non-whitespace language cell, store the normalized cell; later rows
overwrite earlier ones; lookup of an absent key is `none` (undefined). -/
def serverTransMap (serverData : List Row) (id : Str) : Option Str :=
  serverData.foldl
    (fun acc row =>
      if row.termID ≠ [] ∧ row.trans ≠ [] ∧ jsTrim row.trans ≠ [] ∧ row.termID = id
      then some (normalizeText row.trans) else acc)
    none

/-- `serverEnglishMap`: for each row with truthy `termID` and truthy
`English`, store the normalized English. -/
def serverEnglishMap (serverData : List Row) (id : Str) : Option Str :=
  serverData.foldl
    (fun acc row =>
      if row.termID ≠ [] ∧ row.English ≠ [] ∧ row.termID = id
      then some (normalizeText row.English) else acc)
    none

/-- `lqaDataMap` built from the optional LQA dataset (empty when the LQA
argument is `null`). -/
def lqaTransMap (lqaData : Option (List Row)) (id : Str) : Option Str :=
  match lqaData with
  | none => none
  | some rows =>
      rows.foldl
        (fun acc row =>
          if row.termID ≠ [] ∧ row.trans ≠ [] ∧ jsTrim row.trans ≠ [] ∧ row.termID = id
          then some (normalizeText row.trans) else acc)
        none

/-- Entry of `outdatedTerms` in `checkEnhancedMergeStatus`. -/
structure OutdatedTerm where
  termID : Str
  serverEnglish : Str
  mainEnglish : Str
  currentTranslation : Str
deriving DecidableEq

/-- Entry of `unmatchedValidTerms` (`lqaTranslation` keeps the possibly
undefined LQA lookup). -/
structure UnmatchedTerm where
  termID : Str
  serverTranslation : Str
  expectedTranslation : Str
  lqaTranslation : Option Str
deriving DecidableEq

/-- Loop state of `checkEnhancedMergeStatus`. -/
structure MergeAcc where
  validTermsMatched : Nat := 0
  validTermsTotal : Nat := 0
  outdatedTerms : List OutdatedTerm := []
  unmatchedValidTerms : List UnmatchedTerm := []
deriving DecidableEq

/-- One iteration of the `for (const mainRow of mainData)` loop of
`checkEnhancedMergeStatus`, parameterised by the three lookup maps. -/
def mergeStep (sEng sTr lqa : Str → Option Str) (acc : MergeAcc) (mainRow : Row) : MergeAcc :=
  let termID := mainRow.termID
  if termID = [] ∨ mainRow.shouldBeTranslated = strFALSE then acc
  else
    let mainEnglish := normalizeText mainRow.English
    let serverEnglish := sEng termID
    let serverTranslation := sTr termID
    let mainTranslation := normalizeText mainRow.trans
    let lqaTranslation := lqa termID
    if optTruthy serverEnglish ∧ serverEnglish.getD [] ≠ mainEnglish then
      { acc with outdatedTerms := acc.outdatedTerms ++
          [⟨termID, serverEnglish.getD [], mainRow.English, serverTranslation.getD []⟩] }
    else if optTruthy serverTranslation then
      let st := serverTranslation.getD []
      if st = mainTranslation ∨ (optTruthy lqaTranslation ∧ mainTranslation = lqaTranslation.getD []) then
        { acc with validTermsMatched := acc.validTermsMatched + 1,
                   validTermsTotal := acc.validTermsTotal + 1 }
      else
        { acc with validTermsTotal := acc.validTermsTotal + 1,
                   unmatchedValidTerms := acc.unmatchedValidTerms ++
                     [⟨termID, st, mainTranslation, lqaTranslation⟩] }
    else acc

/-- Result object of `checkEnhancedMergeStatus`. -/
structure MergeResult where
  isMerged : Bool
  checkedTerms : Nat
  validTermsMatched : Nat
  validTermsTotal : Nat
  outdatedTerms : List OutdatedTerm
  unmatchedValidTerms : List UnmatchedTerm
  hasOutdatedTerms : Bool
  status : Str
deriving DecidableEq

/-- The return object of `checkEnhancedMergeStatus` (source lines 352 and
402-417): `allValidMerged = (validTermsMatched === validTermsTotal)` — with
no requirement that any term was checked — and the four status codes. -/
def buildMergeResult (acc : MergeAcc) : MergeResult :=
  let allValidMerged := decide (acc.validTermsMatched = acc.validTermsTotal)
  let hasOutdatedTerms := decide (acc.outdatedTerms ≠ [])
  { isMerged := allValidMerged
    checkedTerms := acc.validTermsTotal
    validTermsMatched := acc.validTermsMatched
    validTermsTotal := acc.validTermsTotal
    outdatedTerms := acc.outdatedTerms
    unmatchedValidTerms := acc.unmatchedValidTerms
    hasOutdatedTerms := hasOutdatedTerms
    status :=
      if allValidMerged then
        if hasOutdatedTerms then "merged-outdated".data else "merged".data
      else
        if hasOutdatedTerms then "unmerged-outdated".data else "unmerged".data }

/-- `checkEnhancedMergeStatus(serverData, language, mainData, lqaData)`.
The `language` argument is implicit in the `Row.trans` field. -/
def checkEnhancedMergeStatus (serverData mainData : List Row)
    (lqaData : Option (List Row)) : MergeResult :=
  let sEng := serverEnglishMap serverData
  let sTr := serverTransMap serverData
  let lqa := lqaTransMap lqaData
  buildMergeResult (mainData.foldl (mergeStep sEng sTr lqa) {})

/-- Loop state of the boolean `checkIfMerged`. -/
structure IfMergedAcc where
  matchesMainData : Bool := true
  matchesMainWithLQA : Bool := false
  checkedTerms : Nat := 0
  unmatchedTerms : List UnmatchedTerm := []
deriving DecidableEq

/-- One iteration of the `for (const mainRow of mainData)` loop of
`checkIfMerged`. -/
def checkIfMergedStep (sEng sTr lqa : Str → Option Str) (acc : IfMergedAcc) (mainRow : Row) :
    IfMergedAcc :=
  let termID := mainRow.termID
  if termID = [] ∨ mainRow.shouldBeTranslated = strFALSE then acc
  else
    let mainEnglish := normalizeText mainRow.English
    let serverEnglish := sEng termID
    if optTruthy serverEnglish ∧ serverEnglish.getD [] ≠ mainEnglish then acc
    else
      let serverTranslation := sTr termID
      let mainTranslation := normalizeText mainRow.trans
      let lqaTranslation := lqa termID
      if optTruthy serverTranslation then
        let st := serverTranslation.getD []
        let acc := { acc with checkedTerms := acc.checkedTerms + 1 }
        if st ≠ mainTranslation then
          let acc := { acc with matchesMainData := false }
          if optTruthy lqaTranslation ∧ st = lqaTranslation.getD [] then
            { acc with matchesMainWithLQA := true }
          else
            { acc with unmatchedTerms := acc.unmatchedTerms ++
                [⟨termID, st, mainTranslation, lqaTranslation⟩] }
        else acc
      else acc

/-- `checkIfMerged(serverData, language, mainData, lqaData)`: true when the
server file matches the main data, or matched at least one term through the
LQA overlay. -/
def checkIfMerged (serverData mainData : List Row) (lqaData : Option (List Row)) : Bool :=
  let sEng := serverEnglishMap serverData
  let sTr := serverTransMap serverData
  let lqa := lqaTransMap lqaData
  let acc := mainData.foldl (checkIfMergedStep sEng sTr lqa) {}
  acc.matchesMainData || acc.matchesMainWithLQA

/-! ## Term reconciler (`compareAndGenerateReport`, src/app.js) -/

/-- Detail entry pushed to `needsUpdateDetails`. -/
structure UpdateDetail where
  termID : Str
  oldText : Str
  newText : Str
  userTranslation : Str
deriving DecidableEq

/-- Accumulated pushes of the `latestData.forEach` loop of
`compareAndGenerateReport`. -/
structure CompareAcc where
  needsTranslation : List Str := []
  missingTermsFoundInLatest : List Str := []
  needsUpdate : List Str := []
  needsUpdateDetails : List UpdateDetail := []
  processedRows : List Row := []
deriving DecidableEq

/-- `userDataMap`: rows keyed by truthy `termID`, later rows overwriting. -/
def userDataMapGet (userData : List Row) (id : Str) : Option Row :=
  userData.foldl
    (fun acc row => if row.termID ≠ [] ∧ row.termID = id then some row else acc)
    none

/-- One iteration of the `latestData.forEach` loop of
`compareAndGenerateReport`.  The local variable `shouldBeTranslated` of the
source is initialised to `"TRUE"` and never reassigned, so every row pushed
outside the `"FALSE"` branch carries `strTRUE`. -/
def compareStep (userMap : Str → Option Row) (isLqaMode : Bool)
    (acc : CompareAcc) (latestRow : Row) : CompareAcc :=
  let termID := latestRow.termID
  if termID = [] then acc
  else if latestRow.shouldBeTranslated = strFALSE then
    { acc with processedRows := acc.processedRows ++
        [{ termID := termID
           notes := latestRow.notes
           shouldBeTranslated := latestRow.shouldBeTranslated
           translationNeedsToBeUpdated :=
             if latestRow.translationNeedsToBeUpdated = [] then strFALSE
             else latestRow.translationNeedsToBeUpdated
           English := latestRow.English
           trans := latestRow.trans }] }
  else
    let latestEnglish := latestRow.English
    let latestLanguageText := latestRow.trans
    match userMap termID with
    | some userRow =>
        let userEnglish := userRow.English
        let userLanguageText := userRow.trans
        if userLanguageText ≠ [] ∧ jsTrim userLanguageText ≠ [] then
          if userEnglish ≠ latestEnglish then
            { acc with
                needsUpdate := acc.needsUpdate ++ [termID]
                needsUpdateDetails := acc.needsUpdateDetails ++
                  [⟨termID, userEnglish, latestEnglish, userLanguageText⟩]
                processedRows := acc.processedRows ++
                  [{ termID := termID, notes := latestRow.notes,
                     shouldBeTranslated := strTRUE,
                     translationNeedsToBeUpdated := strTRUE,
                     English := latestEnglish, trans := userLanguageText }] }
          else
            { acc with processedRows := acc.processedRows ++
                [{ termID := termID, notes := latestRow.notes,
                   shouldBeTranslated := strTRUE,
                   translationNeedsToBeUpdated := strFALSE,
                   English := latestEnglish, trans := userLanguageText }] }
        else if isLqaMode then acc
        else if latestLanguageText ≠ [] then
          { acc with
              missingTermsFoundInLatest := acc.missingTermsFoundInLatest ++ [termID]
              processedRows := acc.processedRows ++
                [{ termID := termID, notes := latestRow.notes,
                   shouldBeTranslated := strTRUE,
                   translationNeedsToBeUpdated := strFALSE,
                   English := latestEnglish, trans := latestLanguageText }] }
        else
          { acc with
              needsTranslation := acc.needsTranslation ++ [termID]
              processedRows := acc.processedRows ++
                [{ termID := termID, notes := latestRow.notes,
                   shouldBeTranslated := strTRUE,
                   translationNeedsToBeUpdated := strFALSE,
                   English := latestEnglish, trans := [] }] }
    | none =>
        if isLqaMode then acc
        else if latestLanguageText ≠ [] then
          { acc with
              missingTermsFoundInLatest := acc.missingTermsFoundInLatest ++ [termID]
              processedRows := acc.processedRows ++
                [{ termID := termID, notes := latestRow.notes,
                   shouldBeTranslated := strTRUE,
                   translationNeedsToBeUpdated := strFALSE,
                   English := latestEnglish, trans := latestLanguageText }] }
        else
          { acc with
              needsTranslation := acc.needsTranslation ++ [termID]
              processedRows := acc.processedRows ++
                [{ termID := termID, notes := latestRow.notes,
                   shouldBeTranslated := strTRUE,
                   translationNeedsToBeUpdated := strFALSE,
                   English := latestEnglish, trans := [] }] }

/-- Report returned by `compareAndGenerateReport` (the source also assigns
`processedRows` to `this.processedData`; it is kept as a field here). -/
structure Report where
  needsTranslation : List Str
  missingTermsFoundInLatest : List Str
  needsUpdate : List Str
  needsUpdateDetails : List UpdateDetail
  processedRows : List Row
  totalNeedsTranslation : Nat
  totalMissingTermsFoundInLatest : Nat
  totalNeedsUpdate : Nat
deriving DecidableEq

/-- `compareAndGenerateReport()` of src/app.js; `latestData` is the master
dataset, `userData` the uploaded candidate, `isLqaMode` the LQA checkbox. -/
def compareAndGenerateReport (latestData userData : List Row) (isLqaMode : Bool) : Report :=
  let userMap := userDataMapGet userData
  let acc := latestData.foldl (compareStep userMap isLqaMode) {}
  { needsTranslation := acc.needsTranslation
    missingTermsFoundInLatest := acc.missingTermsFoundInLatest
    needsUpdate := acc.needsUpdate
    needsUpdateDetails := acc.needsUpdateDetails
    processedRows := acc.processedRows
    totalNeedsTranslation := acc.needsTranslation.length
    totalMissingTermsFoundInLatest := acc.missingTermsFoundInLatest.length
    totalNeedsUpdate := acc.needsUpdate.length }

/-! ## Diff engine (src/diffModule.js) -/

/-- A diff part `{added, removed, value}`; absent `added`/`removed` fields
of the source objects are the (falsy) default `false`. -/
structure DiffPart where
  added : Bool := false
  removed : Bool := false
  value : Str := []
deriving DecidableEq

/-- `text.split("\n")`: split into lines, keeping empty segments:
`split "" = [""]`, `split "a\nb" = ["a","b"]`. -/
def splitNL : Str → List Str
  | [] => [[]]
  | c :: rest =>
      if c = '\n' then [] :: splitNL rest
      else
        match splitNL rest with
        | [] => [[c]]
        | s :: ss => (c :: s) :: ss

/-- Item of the list returned by `computeLCS`. -/
structure LCSItem where
  i : Nat
  j : Nat
  value : Str
deriving DecidableEq

/-- The DP table of `computeLCS`: `lcsDp arr1 arr2 i j` is `dp[i][j]` of the
source (LCS length of the first `i` lines of `arr1` and first `j` of `arr2`). -/
def lcsDp (arr1 arr2 : List Str) : Nat → Nat → Nat
  | 0, _ => 0
  | _ + 1, 0 => 0
  | i + 1, j + 1 =>
      if arr1.getD i [] = arr2.getD j [] then lcsDp arr1 arr2 i j + 1
      else max (lcsDp arr1 arr2 i (j + 1)) (lcsDp arr1 arr2 (i + 1) j)

/-- The backtracking loop of `computeLCS`; `unshift` builds the result in
increasing index order, so the recursive translation appends the current
match after the items found at smaller indices. -/
def lcsBacktrack (arr1 arr2 : List Str) : Nat → Nat → List LCSItem
  | i + 1, j + 1 =>
      if arr1.getD i [] = arr2.getD j [] then
        lcsBacktrack arr1 arr2 i j ++ [⟨i, j, arr1.getD i []⟩]
      else if lcsDp arr1 arr2 i (j + 1) > lcsDp arr1 arr2 (i + 1) j then
        lcsBacktrack arr1 arr2 i (j + 1)
      else
        lcsBacktrack arr1 arr2 (i + 1) j
  | 0, _ => []
  | _ + 1, 0 => []

/-- `computeLCS(arr1, arr2)` of src/diffModule.js. -/
def computeLCS (arr1 arr2 : List Str) : List LCSItem :=
  lcsBacktrack arr1 arr2 arr1.length arr2.length

/-- `isInLCS(line, pos, arr2, lcs)`; the `arr2` parameter is unused in the
source body and kept here for fidelity. -/
def isInLCS (line : Str) (pos : Nat) (arr2 : List Str) (lcs : List LCSItem) : Bool :=
  lcs.any fun item => item.value = line && pos ≤ item.j

/-- The `while (i < lines1.length || j < lines2.length)` loop of
`generateLineDiff`.  The final `else []` is unreachable (whenever the guard
holds one of the three cases fires) and only closes the case split. -/
def lineDiffLoop (lines1 lines2 : List Str) (lcs : List LCSItem) (i j : Nat) : List DiffPart :=
  if h : i < lines1.length ∨ j < lines2.length then
    if h1 : i < lines1.length ∧ j < lines2.length ∧ lines1.getD i [] = lines2.getD j [] then
      { value := lines1.getD i [] ++ ['\n'] } ::
        lineDiffLoop lines1 lines2 lcs (i + 1) (j + 1)
    else if h2 : i < lines1.length ∧
        (lines2.length ≤ j ∨ ¬ isInLCS (lines1.getD i []) j lines2 lcs) then
      { removed := true, value := lines1.getD i [] ++ ['\n'] } ::
        lineDiffLoop lines1 lines2 lcs (i + 1) j
    else if h3 : j < lines2.length then
      { added := true, value := lines2.getD j [] ++ ['\n'] } ::
        lineDiffLoop lines1 lines2 lcs i (j + 1)
    else []
  else []
termination_by (lines1.length - i) + (lines2.length - j)
decreasing_by
  all_goals omega

/-- `generateLineDiff(oldText, newText, options)`; the trailing `.map` of the
source normalises absent `added`/`removed` fields to `false`, which the
`DiffPart` defaults already are. -/
def generateLineDiff (oldText newText : Str) : List DiffPart :=
  let lines1 := splitNL oldText
  let lines2 := splitNL newText
  let lcs := computeLCS lines1 lines2
  (lineDiffLoop lines1 lines2 lcs 0 0).map
    (fun p => { added := p.added, removed := p.removed, value := p.value })

/-- Modelled from the spec: `Diff.diffWords` of the external diff library
(not part of this repository), used by `generateDiff` on single-line input.
The spec only fixes its contract — a total function returning typed parts —
so it is modelled as the simplest differ meeting that type. -/
def diffWordsModel (oldText newText : Str) : List DiffPart :=
  if oldText = newText then [{ value := oldText }]
  else [{ removed := true, value := oldText }, { added := true, value := newText }]

/-- Does `text && text.includes("\n")` hold (truthy string containing a
newline)? -/
def containsNewline (o : Option Str) : Bool :=
  match o with
  | none => false
  | some s => !s.isEmpty && s.contains '\n'

/-- `oldText || ""`. -/
def orEmpty (o : Option Str) : Str :=
  match o with
  | none => []
  | some s => s

/-- `generateDiff(oldText, newText, options)`: dispatch to the line-based
diff for multiline input (or when `useLineDiff` is set), otherwise to the
external word differ. -/
def generateDiff (oldText newText : Option Str) (useLineDiff : Bool) : List DiffPart :=
  if useLineDiff || containsNewline oldText || containsNewline newText then
    generateLineDiff (orEmpty oldText) (orEmpty newText)
  else
    diffWordsModel (orEmpty oldText) (orEmpty newText)

/-- Modelled from the spec: `Diff.diffChars` of the external diff library
(not part of this repository), used by `generateCharDiff`; total on strings. -/
def diffCharsModel (oldLine newLine : Str) : List DiffPart :=
  if oldLine = newLine then [{ value := oldLine }]
  else [{ removed := true, value := oldLine }, { added := true, value := newLine }]

/-- `generateCharDiff(oldLine, newLine, options)` (assuming the diff library
is loaded): null-safe via `|| ""`. -/
def generateCharDiff (oldLine newLine : Option Str) : List DiffPart :=
  diffCharsModel (orEmpty oldLine) (orEmpty newLine)

/-- Parts produced by `generateEnhancedLineDiff`: phase 1 pushes line parts
with a `lineType`, phase 2 merges removed/added pairs into `modified` parts
carrying a character diff. -/
structure EnhPart where
  added : Bool := false
  removed : Bool := false
  modified : Bool := false
  value : Str := []
  lineType : Str := []
  oldLine : Str := []
  newLine : Str := []
  charDiff : List DiffPart := []
deriving DecidableEq

/-- Phase 1 of `generateEnhancedLineDiff`: the same loop as
`generateLineDiff` but tagging parts with `lineType`. -/
def enhancedLineLoop (lines1 lines2 : List Str) (lcs : List LCSItem) (i j : Nat) :
    List EnhPart :=
  if h : i < lines1.length ∨ j < lines2.length then
    if h1 : i < lines1.length ∧ j < lines2.length ∧ lines1.getD i [] = lines2.getD j [] then
      { value := lines1.getD i [] ++ ['\n'], lineType := "unchanged".data } ::
        enhancedLineLoop lines1 lines2 lcs (i + 1) (j + 1)
    else if h2 : i < lines1.length ∧
        (lines2.length ≤ j ∨ ¬ isInLCS (lines1.getD i []) j lines2 lcs) then
      { removed := true, value := lines1.getD i [] ++ ['\n'], lineType := "removed".data } ::
        enhancedLineLoop lines1 lines2 lcs (i + 1) j
    else if h3 : j < lines2.length then
      { added := true, value := lines2.getD j [] ++ ['\n'], lineType := "added".data } ::
        enhancedLineLoop lines1 lines2 lcs i (j + 1)
    else []
  else []
termination_by (lines1.length - i) + (lines2.length - j)
decreasing_by
  all_goals omega

/-- `value.replace(/\n$/, "")`: drop one trailing newline. -/
def dropTrailingNL (s : Str) : Str :=
  match s.reverse with
  | '\n' :: rest => rest.reverse
  | _ => s

/-- Phase 2 of `generateEnhancedLineDiff`: merge a removed part immediately
followed by an added part into a `modified` part with a character diff. -/
def enhanceDiff : List EnhPart → List EnhPart
  | current :: next :: rest =>
      if current.removed && next.added then
        let removedLine := dropTrailingNL current.value
        let addedLine := dropTrailingNL next.value
        { lineType := "modified".data
          oldLine := removedLine
          newLine := addedLine
          charDiff := diffCharsModel removedLine addedLine
          value := addedLine ++ ['\n']
          modified := true } :: enhanceDiff rest
      else current :: enhanceDiff (next :: rest)
  | [p] => [p]
  | [] => []

/-- JS runtime errors relevant here: member access on `null`/`undefined`. -/
inductive JsError where
  | typeError
deriving DecidableEq

/-- `generateEnhancedLineDiff(oldText, newText, options)`: the source calls
`oldText.split("\n")` and `newText.split("\n")` directly, so a `null` or
`undefined` argument raises a `TypeError`; on strings it is total. -/
def generateEnhancedLineDiff (oldText newText : Option Str) :
    Except JsError (List EnhPart) :=
  match oldText, newText with
  | none, _ => .error .typeError
  | some _, none => .error .typeError
  | some o, some n =>
      let lines1 := splitNL o
      let lines2 := splitNL n
      let lcs := computeLCS lines1 lines2
      .ok (enhanceDiff (enhancedLineLoop lines1 lines2 lcs 0 0))

/-! ## Derived definitions used by the verification layer -/

/-- The per-character action of `normalizeText` after `replaceCRLF`: the
eleven single-character substitutions in source order followed by NFKC. -/
def normChar (c : Char) : Char :=
  nfkcChar
    (substChar rightSingleQuote quoteChar
      (substChar leftSingleQuote quoteChar
        (substChar rightDoubleQuote '"'
          (substChar leftDoubleQuote '"'
            (substChar fullwidthSemicolon ';'
              (substChar fullwidthColon ':'
                (substChar fullwidthExclam '!'
                  (substChar fullwidthQuestion '?'
                    (substChar ideographicPeriod '.'
                      (substChar ideographicComma ','
                        (substChar '\r' '\n' c)))))))))))

/-- The situation of interest for `checkIfMerged`: an eligible, up-to-date
main row whose (truthy) server translation differs from the main translation
but equals the LQA translation. -/
def lqaMatchCond (sEng sTr lqa : Str → Option Str) (r : Row) : Prop :=
  r.termID ≠ [] ∧ r.shouldBeTranslated ≠ strFALSE ∧
  ¬(optTruthy (sEng r.termID) = true ∧ (sEng r.termID).getD [] ≠ normalizeText r.English) ∧
  optTruthy (sTr r.termID) = true ∧
  (sTr r.termID).getD [] ≠ normalizeText r.trans ∧
  optTruthy (lqa r.termID) = true ∧
  (sTr r.termID).getD [] = (lqa r.termID).getD []

/-- Field-wise concatenation of reconciler loop pushes. -/
def compareAccAppend (a b : CompareAcc) : CompareAcc :=
  { needsTranslation := a.needsTranslation ++ b.needsTranslation
    missingTermsFoundInLatest := a.missingTermsFoundInLatest ++ b.missingTermsFoundInLatest
    needsUpdate := a.needsUpdate ++ b.needsUpdate
    needsUpdateDetails := a.needsUpdateDetails ++ b.needsUpdateDetails
    processedRows := a.processedRows ++ b.processedRows }

/-- Concatenation of the values of all parts not marked `added`
(reconstruction of the old text). -/
def concatNonAdded (parts : List DiffPart) : Str :=
  ((parts.filter fun p => !p.added).map DiffPart.value).flatten

/-- Concatenation of the values of all parts not marked `removed`
(reconstruction of the new text). -/
def concatNonRemoved (parts : List DiffPart) : Str :=
  ((parts.filter fun p => !p.removed).map DiffPart.value).flatten

/-! ## Lemmas: merge-status evaluator -/

/-- Case analysis of `buildMergeResult`. -/
theorem buildMergeResult_spec (acc : MergeAcc) :
    ((buildMergeResult acc).isMerged = true ↔
      acc.validTermsMatched = acc.validTermsTotal) ∧
    (buildMergeResult acc).validTermsMatched = acc.validTermsMatched ∧
    (buildMergeResult acc).validTermsTotal = acc.validTermsTotal ∧
    (buildMergeResult acc).outdatedTerms = acc.outdatedTerms ∧
    (buildMergeResult acc).status =
      (if acc.validTermsMatched = acc.validTermsTotal then
        if acc.outdatedTerms ≠ [] then "merged-outdated".data else "merged".data
      else
        if acc.outdatedTerms ≠ [] then "unmerged-outdated".data else "unmerged".data) := by
  by_cases h1 : acc.validTermsMatched = acc.validTermsTotal <;>
    by_cases h2 : acc.outdatedTerms = [] <;>
      simp [buildMergeResult, h1, h2]

/-- C2 (amended): `isMerged` is exactly `validTermsMatched = validTermsTotal`
(with no requirement that any valid term exists: an empty tally is reported
merged), and the status code is `merged` / `merged-outdated` / `unmerged` /
`unmerged-outdated` according to `isMerged` and the presence of outdated
terms. -/
theorem checkEnhancedMergeStatus_status_spec (serverData mainData : List Row)
    (lqaData : Option (List Row)) :
    ((checkEnhancedMergeStatus serverData mainData lqaData).isMerged = true ↔
      (checkEnhancedMergeStatus serverData mainData lqaData).validTermsMatched =
        (checkEnhancedMergeStatus serverData mainData lqaData).validTermsTotal) ∧
    ((checkEnhancedMergeStatus serverData mainData lqaData).status = "merged".data ↔
      ((checkEnhancedMergeStatus serverData mainData lqaData).isMerged = true ∧
        (checkEnhancedMergeStatus serverData mainData lqaData).outdatedTerms = [])) ∧
    ((checkEnhancedMergeStatus serverData mainData lqaData).status = "merged-outdated".data ↔
      ((checkEnhancedMergeStatus serverData mainData lqaData).isMerged = true ∧
        (checkEnhancedMergeStatus serverData mainData lqaData).outdatedTerms ≠ [])) ∧
    ((checkEnhancedMergeStatus serverData mainData lqaData).status = "unmerged".data ↔
      ((checkEnhancedMergeStatus serverData mainData lqaData).isMerged = false ∧
        (checkEnhancedMergeStatus serverData mainData lqaData).outdatedTerms = [])) ∧
    ((checkEnhancedMergeStatus serverData mainData lqaData).status = "unmerged-outdated".data ↔
      ((checkEnhancedMergeStatus serverData mainData lqaData).isMerged = false ∧
        (checkEnhancedMergeStatus serverData mainData lqaData).outdatedTerms ≠ [])) := by
  have hres : checkEnhancedMergeStatus serverData mainData lqaData =
      buildMergeResult (mainData.foldl
        (mergeStep (serverEnglishMap serverData) (serverTransMap serverData)
          (lqaTransMap lqaData)) {}) := rfl
  rw [hres]
  generalize (mainData.foldl
    (mergeStep (serverEnglishMap serverData) (serverTransMap serverData)
      (lqaTransMap lqaData)) {} : MergeAcc) = acc
  by_cases h1 : acc.validTermsMatched = acc.validTermsTotal <;>
    by_cases h2 : acc.outdatedTerms = [] <;>
      simp [buildMergeResult, h1, h2]

/-- C2 counterexample: on empty inputs no valid term exists
(`validTermsTotal = 0`) yet the evaluator reports `isMerged = true` and
status `merged`, contradicting the claim that `isMerged` requires
`validTermsTotal > 0`. -/
theorem mergeStatus_vacuous_merged_counterexample :
    (checkEnhancedMergeStatus [] [] none).isMerged = true ∧
    (checkEnhancedMergeStatus [] [] none).validTermsTotal = 0 ∧
    (checkEnhancedMergeStatus [] [] none).status = "merged".data := by
  decide

/-- C1 (amended): for an eligible, up-to-date master row whose truthy server
translation differs from the normalized master translation, the term is
counted as matched if and only if the LQA lookup is truthy and the *master*
translation equals the LQA translation (the server translation plays no role
in the LQA comparison); otherwise the term is recorded unmatched. -/
theorem mergeStep_lqa_match_iff (sEng sTr lqa : Str → Option Str) (acc : MergeAcc) (r : Row)
    (hid : r.termID ≠ []) (hsbt : r.shouldBeTranslated ≠ strFALSE)
    (hout : ¬(optTruthy (sEng r.termID) = true ∧
      (sEng r.termID).getD [] ≠ normalizeText r.English))
    (hst : optTruthy (sTr r.termID) = true)
    (hne : (sTr r.termID).getD [] ≠ normalizeText r.trans) :
    mergeStep sEng sTr lqa acc r =
      if optTruthy (lqa r.termID) = true ∧ normalizeText r.trans = (lqa r.termID).getD [] then
        { acc with validTermsMatched := acc.validTermsMatched + 1,
                   validTermsTotal := acc.validTermsTotal + 1 }
      else
        { acc with validTermsTotal := acc.validTermsTotal + 1,
                   unmatchedValidTerms := acc.unmatchedValidTerms ++
                     [⟨r.termID, (sTr r.termID).getD [], normalizeText r.trans, lqa r.termID⟩] } := by
  simp only [mergeStep]
  rw [if_neg (not_or.mpr ⟨hid, hsbt⟩), if_neg hout, if_pos hst]
  by_cases hl : optTruthy (lqa r.termID) = true ∧ normalizeText r.trans = (lqa r.termID).getD []
  · rw [if_pos (Or.inr hl), if_pos hl]
  · rw [if_neg ?_, if_neg hl]
    intro hc
    rcases hc with hc | hc
    · exact hne hc
    · exact hl hc

/-- C1 witness: concrete data exercising the unmatched branch of
`mergeStep_lqa_match_iff` (server translation differs from master, LQA
lookup exists but differs from the master translation). -/
theorem mergeStep_lqa_match_iff_witness :
    mergeStep
      (serverEnglishMap [⟨"T".data, [], [], [], "E".data, "lv".data⟩])
      (serverTransMap [⟨"T".data, [], [], [], "E".data, "lv".data⟩])
      (lqaTransMap (some [⟨"T".data, [], [], [], [], "lv".data⟩]))
      {} ⟨"T".data, [], "TRUE".data, [], "E".data, "good".data⟩ =
    { validTermsTotal := 1,
      unmatchedValidTerms := [⟨"T".data, "lv".data, "good".data, some "lv".data⟩] } :=
  (mergeStep_lqa_match_iff
      (serverEnglishMap [⟨"T".data, [], [], [], "E".data, "lv".data⟩])
      (serverTransMap [⟨"T".data, [], [], [], "E".data, "lv".data⟩])
      (lqaTransMap (some [⟨"T".data, [], [], [], [], "lv".data⟩]))
      {} ⟨"T".data, [], "TRUE".data, [], "E".data, "good".data⟩
      (by decide) (by decide) (by decide) (by decide) (by decide)).trans (by decide)

/-- C1 counterexample: the server translation `lv` equals the LQA
translation `lv` and differs from the normalized master translation `good`,
so the claim counts the term as matched; the code records it as unmatched
(`validTermsMatched = 0`) because it compares the *master* translation with
the LQA value instead of the server translation. -/
theorem mergeStatus_lqa_uses_main_counterexample :
    normalizeText "lv".data ≠ normalizeText "good".data ∧
    serverTransMap [⟨"T".data, [], [], [], "E".data, "lv".data⟩] "T".data = some "lv".data ∧
    lqaTransMap (some [⟨"T".data, [], [], [], [], "lv".data⟩]) "T".data = some "lv".data ∧
    (checkEnhancedMergeStatus
        [⟨"T".data, [], [], [], "E".data, "lv".data⟩]
        [⟨"T".data, [], "TRUE".data, [], "E".data, "good".data⟩]
        (some [⟨"T".data, [], [], [], [], "lv".data⟩])).validTermsMatched = 0 ∧
    (checkEnhancedMergeStatus
        [⟨"T".data, [], [], [], "E".data, "lv".data⟩]
        [⟨"T".data, [], "TRUE".data, [], "E".data, "good".data⟩]
        (some [⟨"T".data, [], [], [], [], "lv".data⟩])).unmatchedValidTerms =
      [⟨"T".data, "lv".data, "good".data, some "lv".data⟩] := by
  decide

/-- C3 (amended): for an eligible master row whose termID has a *non-empty
normalized* English in the server map that differs from the normalized
master English, the term is appended to `outdatedTerms` (normalized server
English, raw master English, current server translation) and the matched /
total tallies are untouched — even when the server translation equals the
master translation. -/
theorem mergeStep_outdated_carveout (sEng sTr lqa : Str → Option Str) (acc : MergeAcc)
    (r : Row) (se : Str)
    (hid : r.termID ≠ []) (hsbt : r.shouldBeTranslated ≠ strFALSE)
    (hse : sEng r.termID = some se) (hsene : se ≠ [])
    (hdiff : se ≠ normalizeText r.English) :
    mergeStep sEng sTr lqa acc r =
      { acc with outdatedTerms := acc.outdatedTerms ++
          [⟨r.termID, se, r.English, (sTr r.termID).getD []⟩] } := by
  simp only [mergeStep]
  rw [if_neg (not_or.mpr ⟨hid, hsbt⟩), if_pos ?_, hse]
  · simp [Option.getD]
  · rw [hse]
    refine ⟨?_, ?_⟩
    · simp [optTruthy, hsene]
    · simpa using hdiff

/-- C3 witness: the server English `OLD` differs from the master English
`NEW`, and the server translation `x` equals the master translation `x`;
the term is still recorded outdated and not counted. -/
theorem mergeStep_outdated_carveout_witness :
    mergeStep
      (serverEnglishMap [⟨"T".data, [], [], [], "OLD".data, "x".data⟩])
      (serverTransMap [⟨"T".data, [], [], [], "OLD".data, "x".data⟩])
      (lqaTransMap none)
      {} ⟨"T".data, [], "TRUE".data, [], "NEW".data, "x".data⟩ =
    { outdatedTerms := [⟨"T".data, "OLD".data, "NEW".data, "x".data⟩] } :=
  (mergeStep_outdated_carveout
      (serverEnglishMap [⟨"T".data, [], [], [], "OLD".data, "x".data⟩])
      (serverTransMap [⟨"T".data, [], [], [], "OLD".data, "x".data⟩])
      (lqaTransMap none)
      {} ⟨"T".data, [], "TRUE".data, [], "NEW".data, "x".data⟩ "OLD".data
      (by decide) (by decide) (by decide) (by decide) (by decide)).trans (by decide)

/-- C3 counterexample: the server row holds the non-empty English value `'`
(a single quote), which normalizes to the empty string; it differs from the
normalized master English `E`, yet the term is NOT recorded outdated and IS
counted toward `validTermsTotal` — the code tests the truthiness of the
*normalized* server English, so the claim fails for raw-non-empty English
values that normalize to empty. -/
theorem outdated_requires_normalized_english_counterexample :
    ([quoteChar] : Str) ≠ [] ∧
    normalizeText [quoteChar] ≠ normalizeText "E".data ∧
    (checkEnhancedMergeStatus
        [⟨"T".data, [], [], [], [quoteChar], "x".data⟩]
        [⟨"T".data, [], "TRUE".data, [], "E".data, "y".data⟩]
        none).outdatedTerms = [] ∧
    (checkEnhancedMergeStatus
        [⟨"T".data, [], [], [], [quoteChar], "x".data⟩]
        [⟨"T".data, [], "TRUE".data, [], "E".data, "y".data⟩]
        none).validTermsTotal = 1 := by
  decide

/-- Once set, the LQA flag of `checkIfMerged` is never cleared by a later
loop iteration. -/
theorem checkIfMergedStep_preserves_lqa (sEng sTr lqa : Str → Option Str)
    (acc : IfMergedAcc) (r : Row) (h : acc.matchesMainWithLQA = true) :
    (checkIfMergedStep sEng sTr lqa acc r).matchesMainWithLQA = true := by
  simp only [checkIfMergedStep]
  split_ifs <;> simp [h]

/-- The LQA flag survives the rest of the fold. -/
theorem foldl_checkIfMergedStep_preserves_lqa (sEng sTr lqa : Str → Option Str) :
    ∀ (rows : List Row) (acc : IfMergedAcc), acc.matchesMainWithLQA = true →
      (rows.foldl (checkIfMergedStep sEng sTr lqa) acc).matchesMainWithLQA = true := by
  intro rows
  induction rows with
  | nil => intro acc h; simpa using h
  | cons r t ih =>
      intro acc h
      exact ih _ (checkIfMergedStep_preserves_lqa sEng sTr lqa acc r h)

/-- A row satisfying `lqaMatchCond` sets the LQA flag. -/
theorem checkIfMergedStep_sets_lqa (sEng sTr lqa : Str → Option Str)
    (acc : IfMergedAcc) (r : Row) (hcond : lqaMatchCond sEng sTr lqa r) :
    (checkIfMergedStep sEng sTr lqa acc r).matchesMainWithLQA = true := by
  obtain ⟨hid, hsbt, hout, hst, hne, hlt, heq⟩ := hcond
  simp only [checkIfMergedStep]
  rw [if_neg (not_or.mpr ⟨hid, hsbt⟩), if_neg hout, if_pos hst, if_pos hne,
    if_pos ⟨hlt, heq⟩]

/-- C10: with an LQA dataset supplied, a single checked term whose server
translation differs from the master translation but equals the LQA
translation makes `checkIfMerged` return `true` for the whole file,
independently of every other term. -/
theorem checkIfMerged_single_lqa_match_suffices (serverData mainData lqaRows : List Row)
    (r : Row) (hr : r ∈ mainData)
    (hcond : lqaMatchCond (serverEnglishMap serverData) (serverTransMap serverData)
      (lqaTransMap (some lqaRows)) r) :
    checkIfMerged serverData mainData (some lqaRows) = true := by
  have key : ∀ (rows : List Row) (acc : IfMergedAcc), r ∈ rows →
      (rows.foldl (checkIfMergedStep (serverEnglishMap serverData)
        (serverTransMap serverData) (lqaTransMap (some lqaRows))) acc).matchesMainWithLQA
        = true := by
    intro rows
    induction rows with
    | nil => intro acc h; cases h
    | cons a t ih =>
        intro acc h
        rcases List.mem_cons.mp h with h | h
        · subst h
          exact foldl_checkIfMergedStep_preserves_lqa _ _ _ t _
            (checkIfMergedStep_sets_lqa _ _ _ acc r hcond)
        · exact ih _ h
  have hflag := key mainData {} hr
  simp only [checkIfMerged, Bool.or_eq_true]
  exact Or.inr hflag

/-- C10 witness: term `A` matches only through LQA while term `B` matches
neither the master nor any LQA value; the file is still reported merged. -/
theorem checkIfMerged_single_lqa_match_suffices_witness :
    lqaMatchCond
      (serverEnglishMap [⟨"A".data, [], [], [], "E".data, "lv".data⟩,
                         ⟨"B".data, [], [], [], "E".data, "zz".data⟩])
      (serverTransMap [⟨"A".data, [], [], [], "E".data, "lv".data⟩,
                       ⟨"B".data, [], [], [], "E".data, "zz".data⟩])
      (lqaTransMap (some [⟨"A".data, [], [], [], [], "lv".data⟩]))
      ⟨"A".data, [], "TRUE".data, [], "E".data, "g".data⟩ ∧
    checkIfMerged
      [⟨"A".data, [], [], [], "E".data, "lv".data⟩,
       ⟨"B".data, [], [], [], "E".data, "zz".data⟩]
      [⟨"A".data, [], "TRUE".data, [], "E".data, "g".data⟩,
       ⟨"B".data, [], "TRUE".data, [], "E".data, "h".data⟩]
      (some [⟨"A".data, [], [], [], [], "lv".data⟩]) = true :=
  ⟨by unfold lqaMatchCond; decide,
   checkIfMerged_single_lqa_match_suffices _ _ _
     ⟨"A".data, [], "TRUE".data, [], "E".data, "g".data⟩
     (by decide) (by unfold lqaMatchCond; decide)⟩

/-! ## Lemmas: term reconciler -/

/-- The per-row pushes of the reconciler loop are independent of the
accumulated state. -/
theorem compareStep_append (userMap : Str → Option Row) (isLqaMode : Bool)
    (acc : CompareAcc) (r : Row) :
    compareStep userMap isLqaMode acc r =
      compareAccAppend acc (compareStep userMap isLqaMode {} r) := by
  simp only [compareStep]
  cases h : userMap r.termID <;> simp only [h] <;> (repeat' split) <;>
    simp [compareAccAppend]

/-- `compareAccAppend` is associative. -/
theorem compareAccAppend_assoc (a b c : CompareAcc) :
    compareAccAppend (compareAccAppend a b) c = compareAccAppend a (compareAccAppend b c) := by
  simp [compareAccAppend]

/-- `{}` is a right identity of `compareAccAppend`. -/
theorem compareAccAppend_empty_right (a : CompareAcc) : compareAccAppend a {} = a := by
  simp [compareAccAppend]

/-- The reconciler fold factors through the empty accumulator. -/
theorem foldl_compareStep_append (userMap : Str → Option Row) (isLqaMode : Bool) :
    ∀ (rows : List Row) (acc : CompareAcc),
      rows.foldl (compareStep userMap isLqaMode) acc =
        compareAccAppend acc (rows.foldl (compareStep userMap isLqaMode) {}) := by
  intro rows
  induction rows with
  | nil => intro acc; rw [List.foldl_nil, List.foldl_nil, compareAccAppend_empty_right]
  | cons r t ih =>
      intro acc
      rw [List.foldl_cons, ih (compareStep userMap isLqaMode acc r),
        compareStep_append userMap isLqaMode acc r, compareAccAppend_assoc,
        List.foldl_cons, ih (compareStep userMap isLqaMode {} r)]

/-- Every field of the reconciler fold is the concatenation of the per-row
pushes. -/
theorem foldl_compareStep_fields (userMap : Str → Option Row) (isLqaMode : Bool)
    (rows : List Row) :
    (rows.foldl (compareStep userMap isLqaMode) {}).needsTranslation =
      (rows.map fun r => (compareStep userMap isLqaMode {} r).needsTranslation).flatten ∧
    (rows.foldl (compareStep userMap isLqaMode) {}).missingTermsFoundInLatest =
      (rows.map fun r => (compareStep userMap isLqaMode {} r).missingTermsFoundInLatest).flatten ∧
    (rows.foldl (compareStep userMap isLqaMode) {}).needsUpdate =
      (rows.map fun r => (compareStep userMap isLqaMode {} r).needsUpdate).flatten ∧
    (rows.foldl (compareStep userMap isLqaMode) {}).needsUpdateDetails =
      (rows.map fun r => (compareStep userMap isLqaMode {} r).needsUpdateDetails).flatten ∧
    (rows.foldl (compareStep userMap isLqaMode) {}).processedRows =
      (rows.map fun r => (compareStep userMap isLqaMode {} r).processedRows).flatten := by
  induction rows with
  | nil => simp
  | cons r t ih =>
      obtain ⟨ih1, ih2, ih3, ih4, ih5⟩ := ih
      have hstep : (r :: t).foldl (compareStep userMap isLqaMode) {} =
          compareAccAppend (compareStep userMap isLqaMode {} r)
            (t.foldl (compareStep userMap isLqaMode) {}) := by
        rw [List.foldl_cons, foldl_compareStep_append]
      rw [hstep]
      simp [compareAccAppend, ih1, ih2, ih3, ih4, ih5]

/-- Anything pushed to `needsTranslation` by one row carries that row's
termID. -/
theorem compareStep_nt_termID (userMap : Str → Option Row) (isLqaMode : Bool)
    (r : Row) (id : Str) :
    id ∈ (compareStep userMap isLqaMode {} r).needsTranslation → id = r.termID := by
  simp only [compareStep]
  cases h : userMap r.termID <;> simp only [h] <;> (repeat' split) <;> simp_all

/-- Anything pushed to `needsUpdate` by one row carries that row's termID. -/
theorem compareStep_nu_termID (userMap : Str → Option Row) (isLqaMode : Bool)
    (r : Row) (id : Str) :
    id ∈ (compareStep userMap isLqaMode {} r).needsUpdate → id = r.termID := by
  simp only [compareStep]
  cases h : userMap r.termID <;> simp only [h] <;> (repeat' split) <;> simp_all

/-- Every row pushed to `processedRows` by one master row carries that
row's termID. -/
theorem compareStep_processed_termID (userMap : Str → Option Row) (isLqaMode : Bool)
    (r : Row) (p : Row) :
    p ∈ (compareStep userMap isLqaMode {} r).processedRows → p.termID = r.termID := by
  simp only [compareStep]
  cases h : userMap r.termID <;> simp only [h] <;> (repeat' split) <;>
    intro hp <;> simp_all

/-- Every processed row has `shouldBeTranslated = "TRUE"`, except rows
copied through the `"FALSE"` skip branch. -/
theorem compareStep_processed_sbt (userMap : Str → Option Row) (isLqaMode : Bool)
    (r : Row) (p : Row) :
    p ∈ (compareStep userMap isLqaMode {} r).processedRows →
      p.shouldBeTranslated = strTRUE ∨
      (r.shouldBeTranslated = strFALSE ∧ p.shouldBeTranslated = strFALSE) := by
  simp only [compareStep]
  cases h : userMap r.termID <;> simp only [h] <;> (repeat' split) <;>
    intro hp <;> simp_all

/-- In regular (non-LQA) mode, an eligible master row with no usable
candidate translation and a non-empty master translation pushes exactly a
found-in-master classification and an output row keeping the master's
translation. -/
theorem compareStep_missing_case (userMap : Str → Option Row) (r : Row)
    (hid : r.termID ≠ []) (hsbt : r.shouldBeTranslated = strTRUE)
    (hlt : r.trans ≠ [])
    (huser : ∀ u, userMap r.termID = some u → jsTrim u.trans = []) :
    compareStep userMap false {} r =
      { missingTermsFoundInLatest := [r.termID],
        processedRows := [⟨r.termID, r.notes, strTRUE, strFALSE, r.English, r.trans⟩] } := by
  have hsbtne : r.shouldBeTranslated ≠ strFALSE := by rw [hsbt]; decide
  simp only [compareStep]
  cases h : userMap r.termID with
  | none => simp [hid, hsbtne, hlt]
  | some u =>
      have hwu := huser u h
      simp [hid, hsbtne, hlt, hwu]

/-- An eligible master row with a usable candidate translation pushes a
needs-update classification exactly when the raw English values differ. -/
theorem compareStep_update_case (userMap : Str → Option Row) (isLqaMode : Bool) (r u : Row)
    (hid : r.termID ≠ []) (hsbt : r.shouldBeTranslated = strTRUE)
    (hu : userMap r.termID = some u)
    (hut : u.trans ≠ []) (hutr : jsTrim u.trans ≠ []) :
    compareStep userMap isLqaMode {} r =
      if u.English ≠ r.English then
        { needsUpdate := [r.termID],
          needsUpdateDetails := [⟨r.termID, u.English, r.English, u.trans⟩],
          processedRows := [⟨r.termID, r.notes, strTRUE, strTRUE, r.English, u.trans⟩] }
      else
        { processedRows := [⟨r.termID, r.notes, strTRUE, strFALSE, r.English, u.trans⟩] } := by
  have hsbtne : r.shouldBeTranslated ≠ strFALSE := by rw [hsbt]; decide
  simp only [compareStep, hu]
  rw [if_neg hid, if_neg hsbtne, if_pos ⟨hut, hutr⟩]
  by_cases he : u.English = r.English
  · rw [if_neg (not_not_intro he), if_neg (not_not_intro he)]
    simp
  · rw [if_pos he, if_pos he]
    simp

/-- C4 (confirmed): in regular mode, a master row with
`shouldBeTranslated = "TRUE"`, a non-empty master translation, and no
usable candidate translation (absent candidate row, or empty /
whitespace-only candidate cell) is classified found-in-master — never
needs-translation — and the (unique, by termID-uniqueness of the master
dataset) output row keeps the master's translation. -/
theorem reconciler_never_regresses (latestData userData : List Row) (r : Row)
    (hnodup : (latestData.map Row.termID).Nodup)
    (hr : r ∈ latestData)
    (hid : r.termID ≠ [])
    (hsbt : r.shouldBeTranslated = strTRUE)
    (hlt : r.trans ≠ [])
    (huser : ∀ u, userDataMapGet userData r.termID = some u → jsTrim u.trans = []) :
    r.termID ∈ (compareAndGenerateReport latestData userData false).missingTermsFoundInLatest ∧
    r.termID ∉ (compareAndGenerateReport latestData userData false).needsTranslation ∧
    (∃ p ∈ (compareAndGenerateReport latestData userData false).processedRows,
        p.termID = r.termID ∧ p.trans = r.trans) ∧
    (∀ p ∈ (compareAndGenerateReport latestData userData false).processedRows,
        p.termID = r.termID → p.trans = r.trans) := by
  obtain ⟨hnt, hmiss, hnu, hdet, hproc⟩ :=
    foldl_compareStep_fields (userDataMapGet userData) false latestData
  have hrnt : (compareAndGenerateReport latestData userData false).needsTranslation =
      (latestData.foldl (compareStep (userDataMapGet userData) false) {}).needsTranslation := rfl
  have hrmiss : (compareAndGenerateReport latestData userData false).missingTermsFoundInLatest =
      (latestData.foldl (compareStep (userDataMapGet userData) false) {}).missingTermsFoundInLatest := rfl
  have hrproc : (compareAndGenerateReport latestData userData false).processedRows =
      (latestData.foldl (compareStep (userDataMapGet userData) false) {}).processedRows := rfl
  have hstep := compareStep_missing_case (userDataMapGet userData) r hid hsbt hlt huser
  refine ⟨?_, ?_, ?_, ?_⟩
  · rw [hrmiss, hmiss]
    refine List.mem_flatten.mpr ⟨(compareStep (userDataMapGet userData) false {} r).missingTermsFoundInLatest, List.mem_map_of_mem _ hr, ?_⟩
    rw [hstep]
    simp
  · intro hmem
    rw [hrnt, hnt] at hmem
    obtain ⟨s, hs, hmem⟩ := List.mem_flatten.mp hmem
    obtain ⟨q, hq, rfl⟩ := List.mem_map.mp hs
    have hqid : r.termID = q.termID :=
      compareStep_nt_termID (userDataMapGet userData) false q r.termID hmem
    have hqe : q = r := List.inj_on_of_nodup_map hnodup hq hr hqid.symm
    subst hqe
    rw [hstep] at hmem
    simp at hmem
  · rw [hrproc, hproc]
    refine ⟨⟨r.termID, r.notes, strTRUE, strFALSE, r.English, r.trans⟩, ?_, rfl, rfl⟩
    refine List.mem_flatten.mpr ⟨(compareStep (userDataMapGet userData) false {} r).processedRows, List.mem_map_of_mem _ hr, ?_⟩
    rw [hstep]
    simp
  · intro p hp hpid
    rw [hrproc, hproc] at hp
    obtain ⟨s, hs, hp⟩ := List.mem_flatten.mp hp
    obtain ⟨q, hq, rfl⟩ := List.mem_map.mp hs
    have hqid : p.termID = q.termID :=
      compareStep_processed_termID (userDataMapGet userData) false q p hp
    have hqe : q = r := List.inj_on_of_nodup_map hnodup hq hr (hqid.symm.trans hpid)
    subst hqe
    rw [hstep] at hp
    simp at hp
    subst hp
    rfl

/-- C4 witness: master holds `Salut` for `T1`, the candidate cell is a
single space (whitespace-only); `T1` is classified found-in-master and not
needs-translation. -/
theorem reconciler_never_regresses_witness :
    "T1".data ∈ (compareAndGenerateReport
        [⟨"T1".data, [], strTRUE, [], "Hi".data, "Salut".data⟩]
        [⟨"T1".data, [], [], [], "Hi".data, [' ']⟩] false).missingTermsFoundInLatest ∧
    "T1".data ∉ (compareAndGenerateReport
        [⟨"T1".data, [], strTRUE, [], "Hi".data, "Salut".data⟩]
        [⟨"T1".data, [], [], [], "Hi".data, [' ']⟩] false).needsTranslation := by
  have h := reconciler_never_regresses
    [⟨"T1".data, [], strTRUE, [], "Hi".data, "Salut".data⟩]
    [⟨"T1".data, [], [], [], "Hi".data, [' ']⟩]
    ⟨"T1".data, [], strTRUE, [], "Hi".data, "Salut".data⟩
    (by decide) (by decide) (by decide) (by decide) (by decide)
    (by
      intro u hu
      rw [show userDataMapGet [⟨"T1".data, [], [], [], "Hi".data, [' ']⟩] "T1".data =
          some ⟨"T1".data, [], [], [], "Hi".data, [' ']⟩ from by decide] at hu
      injection hu with hu
      subst hu
      decide)
  exact ⟨h.1, h.2.1⟩

/-- C5 (amended): for an eligible master row whose candidate row exists and
carries a usable (non-empty, non-whitespace) translation, the term is
classified needs-update — with detail entry
`{termID, oldText := candidate English, newText := master English,
userTranslation := candidate translation}` — if and only if the candidate's
raw English differs from the master's raw English (plain string equality,
not the Text Normalizer equivalence); on raw equality the term is
unchanged. -/
theorem reconciler_update_needs_raw_difference (latestData userData : List Row) (r u : Row)
    (hnodup : (latestData.map Row.termID).Nodup)
    (hr : r ∈ latestData) (hid : r.termID ≠ [])
    (hsbt : r.shouldBeTranslated = strTRUE)
    (hu : userDataMapGet userData r.termID = some u)
    (hut : u.trans ≠ []) (hutr : jsTrim u.trans ≠ []) :
    (r.termID ∈ (compareAndGenerateReport latestData userData false).needsUpdate ↔
      u.English ≠ r.English) ∧
    (u.English ≠ r.English →
      (⟨r.termID, u.English, r.English, u.trans⟩ : UpdateDetail) ∈
        (compareAndGenerateReport latestData userData false).needsUpdateDetails) ∧
    (u.English = r.English →
      (⟨r.termID, r.notes, strTRUE, strFALSE, r.English, u.trans⟩ : Row) ∈
        (compareAndGenerateReport latestData userData false).processedRows) := by
  obtain ⟨hnt, hmiss, hnu, hdet, hproc⟩ :=
    foldl_compareStep_fields (userDataMapGet userData) false latestData
  have hrnu : (compareAndGenerateReport latestData userData false).needsUpdate =
      (latestData.foldl (compareStep (userDataMapGet userData) false) {}).needsUpdate := rfl
  have hrdet : (compareAndGenerateReport latestData userData false).needsUpdateDetails =
      (latestData.foldl (compareStep (userDataMapGet userData) false) {}).needsUpdateDetails := rfl
  have hrproc : (compareAndGenerateReport latestData userData false).processedRows =
      (latestData.foldl (compareStep (userDataMapGet userData) false) {}).processedRows := rfl
  have hstep := compareStep_update_case (userDataMapGet userData) false r u hid hsbt hu hut hutr
  refine ⟨⟨?_, ?_⟩, ?_, ?_⟩
  · intro hmem
    rw [hrnu, hnu] at hmem
    obtain ⟨s, hs, hmem⟩ := List.mem_flatten.mp hmem
    obtain ⟨q, hq, rfl⟩ := List.mem_map.mp hs
    have hqid : r.termID = q.termID :=
      compareStep_nu_termID (userDataMapGet userData) false q r.termID hmem
    have hqe : q = r := List.inj_on_of_nodup_map hnodup hq hr hqid.symm
    subst hqe
    rw [hstep] at hmem
    by_contra he
    rw [if_neg (not_not_intro he)] at hmem
    simp at hmem
  · intro he
    rw [hrnu, hnu]
    refine List.mem_flatten.mpr
      ⟨(compareStep (userDataMapGet userData) false {} r).needsUpdate, List.mem_map_of_mem _ hr, ?_⟩
    rw [hstep, if_pos he]
    simp
  · intro he
    rw [hrdet, hdet]
    refine List.mem_flatten.mpr
      ⟨(compareStep (userDataMapGet userData) false {} r).needsUpdateDetails, List.mem_map_of_mem _ hr, ?_⟩
    rw [hstep, if_pos he]
    simp
  · intro he
    rw [hrproc, hproc]
    refine List.mem_flatten.mpr
      ⟨(compareStep (userDataMapGet userData) false {} r).processedRows, List.mem_map_of_mem _ hr, ?_⟩
    rw [hstep, if_neg (not_not_intro he)]
    simp

/-- C5 witness: candidate English `Hello!` differs (raw) from master
English `Hello`, candidate translation usable; `T` is classified
needs-update. -/
theorem reconciler_update_needs_raw_difference_witness :
    "T".data ∈ (compareAndGenerateReport
        [⟨"T".data, [], strTRUE, [], "Hello".data, "x".data⟩]
        [⟨"T".data, [], [], [], "Hello!".data, "Bo".data⟩] false).needsUpdate :=
  ((reconciler_update_needs_raw_difference
      [⟨"T".data, [], strTRUE, [], "Hello".data, "x".data⟩]
      [⟨"T".data, [], [], [], "Hello!".data, "Bo".data⟩]
      ⟨"T".data, [], strTRUE, [], "Hello".data, "x".data⟩
      ⟨"T".data, [], [], [], "Hello!".data, "Bo".data⟩
      (by decide) (by decide) (by decide) (by decide) (by decide)
      (by decide) (by decide)).1).mpr (by decide)

/-- C5 counterexample: the candidate English differs from the master
English only by a leading spreadsheet-escape quote, so the two are
equivalent under the Text Normalizer; the claim classifies the term
unchanged, but the code compares the raw strings and records `T` as
needs-update. -/
theorem reconciler_normalizer_equiv_counterexample :
    normalizeText ([quoteChar] ++ "Hi".data) = normalizeText "Hi".data ∧
    ([quoteChar] ++ "Hi".data) ≠ "Hi".data ∧
    (compareAndGenerateReport
        [⟨"T".data, [], strTRUE, [], "Hi".data, "x".data⟩]
        [⟨"T".data, [], [], [], [quoteChar] ++ "Hi".data, "Bo".data⟩]
        false).needsUpdate = ["T".data] := by
  decide

/-- C6 (amended): the reconciler never recomputes `shouldBeTranslated`:
every output row carries `"TRUE"` unless it was copied through the
`"FALSE"` skip branch of a `"FALSE"`-marked master row; in the end-to-end
scenario (master `T1`/`Hi` untranslated, candidate supplies `Bonjour`) the
output row keeps `shouldBeTranslated = "TRUE"` (not `"FALSE"`) while
`needsTranslation` and `needsUpdate` are empty and `FR` is `Bonjour`. -/
theorem reconciler_sbt_never_recomputed (latestData userData : List Row) (isLqaMode : Bool) :
    (∀ p ∈ (compareAndGenerateReport latestData userData isLqaMode).processedRows,
        p.shouldBeTranslated = strTRUE ∨
        ∃ q ∈ latestData, q.shouldBeTranslated = strFALSE ∧
          p.shouldBeTranslated = strFALSE) ∧
    compareAndGenerateReport
        [⟨"T1".data, [], strTRUE, [], "Hi".data, []⟩]
        [⟨"T1".data, [], [], [], "Hi".data, "Bonjour".data⟩] false =
      { needsTranslation := [], missingTermsFoundInLatest := [], needsUpdate := [],
        needsUpdateDetails := [],
        processedRows := [⟨"T1".data, [], strTRUE, strFALSE, "Hi".data, "Bonjour".data⟩],
        totalNeedsTranslation := 0, totalMissingTermsFoundInLatest := 0,
        totalNeedsUpdate := 0 } := by
  constructor
  · intro p hp
    obtain ⟨hnt, hmiss, hnu, hdet, hproc⟩ :=
      foldl_compareStep_fields (userDataMapGet userData) isLqaMode latestData
    have hrproc : (compareAndGenerateReport latestData userData isLqaMode).processedRows =
        (latestData.foldl (compareStep (userDataMapGet userData) isLqaMode) {}).processedRows :=
      rfl
    rw [hrproc, hproc] at hp
    obtain ⟨s, hs, hp⟩ := List.mem_flatten.mp hp
    obtain ⟨q, hq, rfl⟩ := List.mem_map.mp hs
    rcases compareStep_processed_sbt (userDataMapGet userData) isLqaMode q p hp with h | ⟨h1, h2⟩
    · exact Or.inl h
    · exact Or.inr ⟨q, hq, h1, h2⟩
  · decide

/-- C6 witness: the output row of the end-to-end scenario has
`shouldBeTranslated = "TRUE"`. -/
theorem reconciler_sbt_never_recomputed_witness :
    (⟨"T1".data, [], strTRUE, strFALSE, "Hi".data, "Bonjour".data⟩ : Row).shouldBeTranslated =
      strTRUE :=
  ((reconciler_sbt_never_recomputed
      [⟨"T1".data, [], strTRUE, [], "Hi".data, []⟩]
      [⟨"T1".data, [], [], [], "Hi".data, "Bonjour".data⟩] false).1
    ⟨"T1".data, [], strTRUE, strFALSE, "Hi".data, "Bonjour".data⟩
    (by decide)).resolve_right (by decide)

/-- C6 counterexample: in the end-to-end scenario the code leaves
`shouldBeTranslated = "TRUE"` on the output row, not `"FALSE"` as the claim
states, even though the reconciled translation `Bonjour` is available. -/
theorem reconciler_scenario_sbt_counterexample :
    (compareAndGenerateReport
        [⟨"T1".data, [], strTRUE, [], "Hi".data, []⟩]
        [⟨"T1".data, [], [], [], "Hi".data, "Bonjour".data⟩] false).needsTranslation = [] ∧
    (compareAndGenerateReport
        [⟨"T1".data, [], strTRUE, [], "Hi".data, []⟩]
        [⟨"T1".data, [], [], [], "Hi".data, "Bonjour".data⟩] false).needsUpdate = [] ∧
    (compareAndGenerateReport
        [⟨"T1".data, [], strTRUE, [], "Hi".data, []⟩]
        [⟨"T1".data, [], [], [], "Hi".data, "Bonjour".data⟩] false).processedRows.map
      Row.trans = ["Bonjour".data] ∧
    (compareAndGenerateReport
        [⟨"T1".data, [], strTRUE, [], "Hi".data, []⟩]
        [⟨"T1".data, [], [], [], "Hi".data, "Bonjour".data⟩] false).processedRows.map
      Row.shouldBeTranslated = [strTRUE] ∧
    strTRUE ≠ strFALSE := by
  decide

/-! ## Lemmas: text normalizer -/

/-- `normalizeText` is the CRLF collapse followed by one character-wise
map. -/
theorem normalizeText_eq_map (t : Str) :
    normalizeText t =
      if t.isEmpty then [] else (replaceCRLF (stripLeadingQuote t)).map normChar := by
  have hfun : (nfkcChar ∘
      substChar rightSingleQuote quoteChar ∘
        substChar leftSingleQuote quoteChar ∘
          substChar rightDoubleQuote '"' ∘
            substChar leftDoubleQuote '"' ∘
              substChar fullwidthSemicolon ';' ∘
                substChar fullwidthColon ':' ∘
                  substChar fullwidthExclam '!' ∘
                    substChar fullwidthQuestion '?' ∘
                      substChar ideographicPeriod '.' ∘
                        substChar ideographicComma ',' ∘ substChar '\r' '\n') = normChar := by
    funext c
    simp [normChar, Function.comp]
  cases t with
  | nil => simp [normalizeText]
  | cons a t0 =>
      simp only [normalizeText, nfkcNormalize, replaceChar, List.map_map,
        List.isEmpty_cons, Bool.false_eq_true, if_false, hfun]

/-- `replaceCRLF` introduces no new characters. -/
theorem mem_replaceCRLF (t : Str) (c : Char) (h : c ∈ replaceCRLF t) : c ∈ t := by
  induction t using replaceCRLF.induct with
  | case1 rest ih =>
      rw [replaceCRLF] at h
      rcases List.mem_cons.mp h with h | h
      · simp [h]
      · simp only [List.mem_cons]
        exact Or.inr (Or.inr (ih h))
  | case2 c0 rest hne ih =>
      rw [replaceCRLF] at h
      · rcases List.mem_cons.mp h with h | h
        · simp [h]
        · exact List.mem_cons.mpr (Or.inr (ih h))
      · exact hne
  | case3 => simp [replaceCRLF] at h

/-- `replaceCRLF` is the identity on CR-free strings. -/
theorem replaceCRLF_eq_self (t : Str) (h : '\r' ∉ t) : replaceCRLF t = t := by
  induction t using replaceCRLF.induct with
  | case1 rest ih => exact absurd (by simp) h
  | case2 c0 rest hne ih =>
      rw [replaceCRLF]
      · rw [ih (fun hm => h (List.mem_cons.mpr (Or.inr hm)))]
      · exact hne
  | case3 => rfl

/-- `stripLeadingQuote` removes nothing from a string that does not start
with a single quote. -/
theorem stripLeadingQuote_eq_self (t : Str) (h : t.head? ≠ some quoteChar) :
    stripLeadingQuote t = t := by
  cases t with
  | nil => rfl
  | cons a t =>
      rw [stripLeadingQuote, if_neg]
      intro he
      exact h (by simp [he])

/-- `stripLeadingQuote` introduces no new characters. -/
theorem mem_stripLeadingQuote (t : Str) (c : Char) (h : c ∈ stripLeadingQuote t) : c ∈ t := by
  cases t with
  | nil => simp [stripLeadingQuote] at h
  | cons a t =>
      rw [stripLeadingQuote] at h
      split at h
      · exact List.mem_cons.mpr (Or.inr h)
      · exact h

/-- `normChar` fixes every ASCII character other than CR. -/
theorem normChar_eq_self (c : Char) (hascii : c.toNat < 128) (hcr : c ≠ '\r') :
    normChar c = c := by
  have h1 : c ≠ ideographicComma := fun he => absurd (he ▸ hascii) (by decide)
  have h2 : c ≠ ideographicPeriod := fun he => absurd (he ▸ hascii) (by decide)
  have h3 : c ≠ fullwidthQuestion := fun he => absurd (he ▸ hascii) (by decide)
  have h4 : c ≠ fullwidthExclam := fun he => absurd (he ▸ hascii) (by decide)
  have h5 : c ≠ fullwidthColon := fun he => absurd (he ▸ hascii) (by decide)
  have h6 : c ≠ fullwidthSemicolon := fun he => absurd (he ▸ hascii) (by decide)
  have h7 : c ≠ leftDoubleQuote := fun he => absurd (he ▸ hascii) (by decide)
  have h8 : c ≠ rightDoubleQuote := fun he => absurd (he ▸ hascii) (by decide)
  have h9 : c ≠ leftSingleQuote := fun he => absurd (he ▸ hascii) (by decide)
  have h10 : c ≠ rightSingleQuote := fun he => absurd (he ▸ hascii) (by decide)
  simp [normChar, substChar, nfkcChar, hcr, h1, h2, h3, h4, h5, h6, h7, h8, h9, h10]

/-- On the modelled repertoire, `normChar` lands in ASCII and never
produces a CR. -/
theorem normChar_modelled_ascii (c : Char) (h : modelledChar c = true) :
    (normChar c).toNat < 128 ∧ normChar c ≠ '\r' := by
  simp only [modelledChar, Bool.or_eq_true, decide_eq_true_eq] at h
  rcases h with ((((((((((h | h) | h) | h) | h) | h) | h) | h) | h) | h) | h)
  · by_cases hcr : c = '\r'
    · subst hcr; decide
    · rw [normChar_eq_self c h hcr]; exact ⟨h, hcr⟩
  all_goals subst h
  all_goals decide

/-- Everything `normalizeText` produces from a repertoire string is ASCII
and CR-free. -/
theorem normalizeText_chars (t : Str) (h : ∀ c ∈ t, modelledChar c = true) :
    ∀ c ∈ normalizeText t, c.toNat < 128 ∧ c ≠ '\r' := by
  intro c hc
  rw [normalizeText_eq_map] at hc
  by_cases ht : t.isEmpty
  · rw [if_pos ht] at hc
    simp at hc
  · rw [if_neg ht] at hc
    obtain ⟨c0, hc0, rfl⟩ := List.mem_map.mp hc
    exact normChar_modelled_ascii c0
      (h c0 (mem_stripLeadingQuote t c0 (mem_replaceCRLF _ c0 hc0)))

/-- `normChar` maps an ASCII, CR-free string to itself. -/
theorem map_normChar_eq_self (t : Str) (h : ∀ c ∈ t, c.toNat < 128 ∧ c ≠ '\r') :
    t.map normChar = t := by
  induction t with
  | nil => rfl
  | cons a t0 ih =>
      have ha := h a (List.mem_cons_self a t0)
      rw [List.map_cons, normChar_eq_self a ha.1 ha.2,
        ih (fun c hc => h c (List.mem_cons.mpr (Or.inr hc)))]

/-- C7 (amended): `normalizeText` is idempotent on strings over the
modelled repertoire whose normalized form does not begin with a single
quote; the quote-stripping step breaks idempotence otherwise (see the
counterexample). -/
theorem normalizeText_idempotent_on_repertoire (t : Str)
    (hrep : ∀ c ∈ t, modelledChar c = true)
    (hq : (normalizeText t).head? ≠ some quoteChar) :
    normalizeText (normalizeText t) = normalizeText t := by
  have hchars := normalizeText_chars t hrep
  rw [normalizeText_eq_map (normalizeText t)]
  by_cases hempty : (normalizeText t).isEmpty
  · rw [if_pos hempty]
    exact (List.isEmpty_iff.mp hempty).symm
  · rw [if_neg hempty, stripLeadingQuote_eq_self _ hq,
      replaceCRLF_eq_self _ (fun hm => ((hchars '\r' hm).2) rfl),
      map_normChar_eq_self _ hchars]

/-- C7 witness: idempotence holds at the ASCII string `ab`. -/
theorem normalizeText_idempotent_on_repertoire_witness :
    (∀ c ∈ ("ab".data : Str), modelledChar c = true) ∧
    normalizeText (normalizeText "ab".data) = normalizeText "ab".data :=
  ⟨by decide, normalizeText_idempotent_on_repertoire "ab".data (by decide) (by decide)⟩

/-- C7 counterexample: on the two-character string `''` the normalizer
strips exactly one leading quote each time it runs, so a second application
changes the result and idempotence fails. -/
theorem normalizeText_not_idempotent_counterexample :
    normalizeText [quoteChar, quoteChar] = [quoteChar] ∧
    normalizeText (normalizeText [quoteChar, quoteChar]) = [] ∧
    normalizeText (normalizeText [quoteChar, quoteChar]) ≠
      normalizeText [quoteChar, quoteChar] := by
  decide

/-! ## Lemmas: diff engine -/

/-- `split("\n")` never returns an empty array. -/
theorem splitNL_ne_nil (t : Str) : splitNL t ≠ [] := by
  cases t with
  | nil => simp [splitNL]
  | cons c rest =>
      rw [splitNL]
      split
      · simp
      · split
        · simp
        · simp

/-- Appending a newline to every line of `split("\n")` and concatenating
restores the text plus one trailing newline. -/
theorem flatten_splitNL (t : Str) :
    ((splitNL t).map (fun l => l ++ ['\n'])).flatten = t ++ ['\n'] := by
  induction t with
  | nil => rfl
  | cons c rest ih =>
      rw [splitNL]
      split
      · rename_i hc
        subst hc
        simpa using ih
      · rename_i hc
        cases hs : splitNL rest with
        | nil => exact absurd hs (splitNL_ne_nil rest)
        | cons s ss =>
            rw [hs] at ih
            simp only [List.map_cons, List.flatten_cons] at ih ⊢
            rw [List.cons_append, List.cons_append, ih, List.cons_append]

set_option maxRecDepth 2000 in
/-- Head unfolding of `concatNonAdded`. -/
theorem concatNonAdded_cons (p : DiffPart) (rest : List DiffPart) :
    concatNonAdded (p :: rest) =
      if p.added then concatNonAdded rest else p.value ++ concatNonAdded rest := by
  cases hp : p.added <;> simp [concatNonAdded, List.filter_cons, hp]

set_option maxRecDepth 2000 in
/-- Head unfolding of `concatNonRemoved`. -/
theorem concatNonRemoved_cons (p : DiffPart) (rest : List DiffPart) :
    concatNonRemoved (p :: rest) =
      if p.removed then concatNonRemoved rest else p.value ++ concatNonRemoved rest := by
  cases hp : p.removed <;> simp [concatNonRemoved, List.filter_cons, hp]

set_option maxRecDepth 4000 in
/-- The non-added parts of the line-diff loop spell out the remaining old
lines, each with a newline appended. -/
theorem lineDiffLoop_nonAdded (lines1 lines2 : List Str) (lcs : List LCSItem) :
    ∀ i j, concatNonAdded (lineDiffLoop lines1 lines2 lcs i j) =
      ((lines1.drop i).map (fun l => l ++ ['\n'])).flatten := by
  intro i j
  induction i, j using lineDiffLoop.induct lines1 lines2 lcs with
  | case1 i j h h1 ih =>
      rw [lineDiffLoop, dif_pos h, dif_pos h1, concatNonAdded_cons,
        List.drop_eq_getElem_cons h1.1, ← List.getD_eq_getElem lines1 [] h1.1,
        List.map_cons, List.flatten_cons]
      simpa using ih
  | case2 i j h hn1 h2 ih =>
      rw [lineDiffLoop, dif_pos h, dif_neg hn1, dif_pos h2, concatNonAdded_cons,
        List.drop_eq_getElem_cons h2.1, ← List.getD_eq_getElem lines1 [] h2.1,
        List.map_cons, List.flatten_cons]
      simpa using ih
  | case3 i j h hn1 hn2 h3 ih =>
      rw [lineDiffLoop, dif_pos h, dif_neg hn1, dif_neg hn2, dif_pos h3, concatNonAdded_cons]
      simpa using ih
  | case4 i j h hn1 hn2 hn3 =>
      exfalso
      rcases h with hi | hj
      · exact hn2 ⟨hi, Or.inl (by omega)⟩
      · exact hn3 hj
  | case5 i j hn =>
      rw [not_or] at hn
      rw [lineDiffLoop, dif_neg (not_or.mpr hn), List.drop_eq_nil_of_le (Nat.le_of_not_lt hn.1)]
      rfl

set_option maxRecDepth 4000 in
/-- The non-removed parts of the line-diff loop spell out the remaining new
lines, each with a newline appended. -/
theorem lineDiffLoop_nonRemoved (lines1 lines2 : List Str) (lcs : List LCSItem) :
    ∀ i j, concatNonRemoved (lineDiffLoop lines1 lines2 lcs i j) =
      ((lines2.drop j).map (fun l => l ++ ['\n'])).flatten := by
  intro i j
  induction i, j using lineDiffLoop.induct lines1 lines2 lcs with
  | case1 i j h h1 ih =>
      rw [lineDiffLoop, dif_pos h, dif_pos h1, concatNonRemoved_cons,
        List.drop_eq_getElem_cons h1.2.1, ← List.getD_eq_getElem lines2 [] h1.2.1,
        ← h1.2.2, List.map_cons, List.flatten_cons]
      simpa using ih
  | case2 i j h hn1 h2 ih =>
      rw [lineDiffLoop, dif_pos h, dif_neg hn1, dif_pos h2, concatNonRemoved_cons]
      simpa using ih
  | case3 i j h hn1 hn2 h3 ih =>
      rw [lineDiffLoop, dif_pos h, dif_neg hn1, dif_neg hn2, dif_pos h3, concatNonRemoved_cons,
        List.drop_eq_getElem_cons h3, ← List.getD_eq_getElem lines2 [] h3,
        List.map_cons, List.flatten_cons]
      simpa using ih
  | case4 i j h hn1 hn2 hn3 =>
      exfalso
      rcases h with hi | hj
      · exact hn2 ⟨hi, Or.inl (by omega)⟩
      · exact hn3 hj
  | case5 i j hn =>
      rw [not_or] at hn
      rw [lineDiffLoop, dif_neg (not_or.mpr hn), List.drop_eq_nil_of_le (Nat.le_of_not_lt hn.2)]
      rfl

/-- The trailing `.map` of `generateLineDiff` is the identity. -/
theorem generateLineDiff_eq_loop (oldText newText : Str) :
    generateLineDiff oldText newText =
      lineDiffLoop (splitNL oldText) (splitNL newText)
        (computeLCS (splitNL oldText) (splitNL newText)) 0 0 := by
  simp only [generateLineDiff]
  rw [show (fun p : DiffPart =>
      ({ added := p.added, removed := p.removed, value := p.value } : DiffPart)) = id from
    funext fun p => rfl, List.map_id]

/-- C8 (amended): in line-based mode the diff reconstructs each source *up
to one appended trailing newline*: concatenating the non-added values gives
`old ++ "\n"` and the non-removed values give `new ++ "\n"` (the loop
appends `"\n"` to every line, including the last). -/
theorem generateLineDiff_reconstructs (oldText newText : Str) :
    generateDiff (some oldText) (some newText) true = generateLineDiff oldText newText ∧
    concatNonAdded (generateLineDiff oldText newText) = oldText ++ ['\n'] ∧
    concatNonRemoved (generateLineDiff oldText newText) = newText ++ ['\n'] := by
  refine ⟨rfl, ?_, ?_⟩
  · rw [generateLineDiff_eq_loop, lineDiffLoop_nonAdded, List.drop_zero]
    exact flatten_splitNL oldText
  · rw [generateLineDiff_eq_loop, lineDiffLoop_nonRemoved, List.drop_zero]
    exact flatten_splitNL newText

/-- C8 counterexample: for `old = "a"`, `new = "a\nb"` the multiline
dispatch selects the line diff, whose non-added values concatenate to
`"a\n"`, not to `old` itself — reconstruction holds only up to the trailing
newline. -/
theorem diff_reconstruction_counterexample :
    concatNonAdded (generateDiff (some "a".data) (some "a\nb".data) false) = "a\n".data ∧
    concatNonAdded (generateDiff (some "a".data) (some "a\nb".data) false) ≠ "a".data := by
  have hd : generateDiff (some "a".data) (some "a\nb".data) false =
      generateLineDiff "a".data "a\nb".data := rfl
  have h : concatNonAdded (generateLineDiff "a".data "a\nb".data) = "a".data ++ ['\n'] := by
    rw [generateLineDiff_eq_loop, lineDiffLoop_nonAdded, List.drop_zero]
    exact flatten_splitNL _
  rw [hd, h]
  exact ⟨by decide, by decide⟩

/-- C9 (amended): on string inputs `generateEnhancedLineDiff` is total
(returns `ok`), and `generateDiff` / `generateCharDiff` coerce `null` /
`undefined` to the empty string; but `generateEnhancedLineDiff` itself
throws on `null`/`undefined` (see the counterexample). -/
theorem diff_engine_totality :
    (∀ oldText newText : Str, ∃ parts,
        generateEnhancedLineDiff (some oldText) (some newText) = Except.ok parts) ∧
    (∀ (o n : Option Str) (u : Bool),
        generateDiff o n u = generateDiff (some (orEmpty o)) (some (orEmpty n)) u) ∧
    (∀ o n : Option Str,
        generateCharDiff o n = generateCharDiff (some (orEmpty o)) (some (orEmpty n))) := by
  refine ⟨fun o n => ⟨_, rfl⟩, ?_, ?_⟩
  · intro o n u
    cases o <;> cases n <;> rfl
  · intro o n
    cases o <;> cases n <;> rfl

/-- C9 counterexample: `generateEnhancedLineDiff` calls `.split("\n")`
directly on its arguments, so a `null`/`undefined` argument raises a
TypeError instead of being treated as the empty string. -/
theorem enhanced_diff_null_throws_counterexample :
    generateEnhancedLineDiff none (some "x".data) = Except.error JsError.typeError ∧
    generateEnhancedLineDiff (some "x".data) none = Except.error JsError.typeError :=
  ⟨rfl, rfl⟩
